import Mathlib

/-!
Shallow embedding of `src/spo_controller.py` and `src/main.py` from the
SharePointOnlineCopy repository, with proofs about the chunked upload
engine, the retention (cleanup) loop, configuration validation, token
handling and the directory-lookup endpoint derivation.

Remote interactions are modelled by passing the remote's responses in
explicitly: `resp : Nat → Nat` gives the HTTP status answered to the i-th
chunk PUT, and `delOk : Nat → Bool` tells whether the i-th DELETE request
returned status 204 (the code's success criterion in `_delete_file`).
-/

/-- `CHUNK_SIZE` constant, `spo_controller.py` line 15. -/
def CHUNK_SIZE : Nat := 10485760

/-- `MAX_BACKUPS` constant, `spo_controller.py` line 17. -/
def MAX_BACKUPS : Nat := 4

/-- The `acceptable_codes` list used for chunk uploads
(`spo_controller.py` line 283) and directory creation (line 207). -/
def acceptable_codes : List Nat := [200, 201, 202]

/-- One PUT request issued by `_manage_file_chunks`: it carries the bytes
`[start, start + len)` of the file, i.e. the `Content-Range` header
`bytes start-(start+len-1)/file_size` with `Content-Length` equal to `len`. -/
structure PutCall where
  start : Nat
  len : Nat
deriving DecidableEq

/-- The `for chunk_num in range(chunks)` loop body of `_manage_file_chunks`
(`spo_controller.py` lines 290-318).  The first argument of the recursion is
the number of remaining iterations, then the current `chunk_num` and the
current file position `start`.  `file_data.read(CHUNK_SIZE)` returns
`min CHUNK_SIZE (file_size - start)` bytes since `start` tracks the file
position exactly (`start += bytes_read`).  The returned list is the trace of
PUT requests issued (including a failing one), and the Bool is the function's
return value; a status outside `acceptable_codes` returns `False` at once. -/
def manageChunksLoop (file_size : Nat) (resp : Nat → Nat) :
    Nat → Nat → Nat → List PutCall × Bool
  | 0, _, _ => ([], true)
  | n + 1, chunk_num, start =>
    let bytes_read := min CHUNK_SIZE (file_size - start)
    if resp chunk_num ∈ acceptable_codes then
      let rest := manageChunksLoop file_size resp n (chunk_num + 1) (start + bytes_read)
      (⟨start, bytes_read⟩ :: rest.1, rest.2)
    else
      ([⟨start, bytes_read⟩], false)

/-- `_manage_file_chunks` (`spo_controller.py` lines 271-320).
`chunks = int(file_size / CHUNK_SIZE) + 1` truncates the true quotient,
which for natural sizes is floor division, i.e. `file_size / CHUNK_SIZE + 1`
in Lean's `Nat`.  The loop starts at `chunk_num = 0` with file position 0. -/
def manage_file_chunks (file_size : Nat) (resp : Nat → Nat) : List PutCall × Bool :=
  manageChunksLoop file_size resp (file_size / CHUNK_SIZE + 1) 0 0

/-- Closed form of the file offset before chunk `i`: the file position after
`i` reads of up to `CHUNK_SIZE` bytes. -/
def chunkStart (file_size i : Nat) : Nat :=
  min (i * CHUNK_SIZE) file_size

/-- Closed form of the number of bytes read for chunk `i`. -/
def chunkLen (file_size i : Nat) : Nat :=
  min CHUNK_SIZE (file_size - chunkStart file_size i)

/-- Closed form of the full PUT trace when no chunk is rejected. -/
def chunkCalls (file_size : Nat) : List PutCall :=
  (List.range (file_size / CHUNK_SIZE + 1)).map fun i =>
    ⟨chunkStart file_size i, chunkLen file_size i⟩

/-- A folder-listing entry as consumed by `cleanup_files`
(`spo_controller.py` lines 379-417): the `id`, `name` and
`createdDateTime` fields of one item of the `value` array.
`createdDateTime` is the result of `datetime.strptime(...)`: `some t`
models a timestamp that parses (as a point on the totally ordered
datetime axis, encoded as a `Nat`), `none` a string that raises
`ValueError` and is caught and skipped. -/
structure RemoteItem where
  id : String
  name : String
  createdDateTime : Option Nat
deriving DecidableEq

/-- The parsed creation time of an item (only meaningful when
`createdDateTime` is `some`). -/
def timeOf (it : RemoteItem) : Nat :=
  it.createdDateTime.getD 0

/-- The `for single_file in dir_content` scan of `cleanup_files`
(`spo_controller.py` lines 390-403).  The accumulator is the triple
`(oldest_timestamp, oldest_filename, oldest_id)`; an unparseable
`createdDateTime` leaves it unchanged (the `except ValueError` branch), a
parsed time updates it only when strictly smaller (line 395), so the first
minimum encountered wins. -/
def selectOldest : List RemoteItem → Nat × String × String → Nat × String × String
  | [], acc => acc
  | single_file :: rest, acc =>
    selectOldest rest
      (match single_file.createdDateTime with
        | none => acc
        | some t => if t < acc.1 then (t, single_file.name, single_file.id) else acc)

/-- The `while len(dir_content) > MAX_BACKUPS` loop of `cleanup_files`
(`spo_controller.py` lines 386-417).  `sentinel` is the initial
`oldest_timestamp` of each pass, `datetime(right_now.year + 1, ...)`
(line 387) — a fixed instant one year ahead of `right_now`, which is
computed once before the loop.  `delOk step` is whether the `step`-th
`_delete_file` call got remote status 204 (lines 366-371); on failure the
loop `break`s (line 410).  After a successful deletion the first item whose
`id` equals the deleted id is removed from the in-memory list
(lines 413-417; `next(...)` with default `{}` and `list.remove`).
`fuel` bounds the number of iterations (the Python loop has no such bound);
the returned values are the trace of attempted deletion ids and the final
`dir_content`. -/
def cleanupLoop (sentinel : Nat) (delOk : Nat → Bool) :
    Nat → Nat → List RemoteItem → String → String → List String × List RemoteItem
  | 0, _, dir_content, _, _ => ([], dir_content)
  | fuel + 1, step, dir_content, oldest_filename, oldest_id =>
    if MAX_BACKUPS < dir_content.length then
      let sel := selectOldest dir_content (sentinel, oldest_filename, oldest_id)
      if delOk step then
        let remaining :=
          match dir_content.find? (fun f => f.id == sel.2.2) with
          | some m => dir_content.erase m
          | none => dir_content
        let r := cleanupLoop sentinel delOk fuel (step + 1) remaining sel.2.1 sel.2.2
        (sel.2.2 :: r.1, r.2)
      else
        ([sel.2.2], dir_content)
    else
      ([], dir_content)

/-- `cleanup_files` (`spo_controller.py` lines 373-417): `oldest_filename`
and `oldest_id` start as empty strings (lines 382-383) and the loop runs on
the folder listing. -/
def cleanup_files (sentinel : Nat) (delOk : Nat → Bool) (fuel : Nat)
    (dir_content : List RemoteItem) : List String × List RemoteItem :=
  cleanupLoop sentinel delOk fuel 0 dir_content "" ""

/-- Modelled from the spec's Retention Manager algorithm (spec §4.5): the
candidate of one pass is the item with the minimum creation timestamp,
ties broken by iteration order — the first minimum encountered wins.
`find?` returns the first item whose time is less than or equal to every
item's time, which is exactly that first minimum. -/
def specSelect (items : List RemoteItem) : Option RemoteItem :=
  items.find? fun it => items.all fun other => decide (timeOf it ≤ timeOf other)

/-- Modelled from the spec's Retention Manager algorithm (spec §4.5):
perform `k` eviction rounds, each deleting the first-minimum-timestamp
item of the remaining list; returns the deleted ids in order together with
the remaining items. -/
def specEvict : Nat → List RemoteItem → List String × List RemoteItem
  | 0, items => ([], items)
  | k + 1, items =>
    match specSelect items with
    | none => ([], items)
    | some m =>
      let r := specEvict k (items.erase m)
      (m.id :: r.1, r.2)

/-- The set of configuration values read from the environment in
`SpoController.__init__` (`spo_controller.py` lines 38-45); missing
environment variables default to the empty string. -/
structure SpoConfig where
  authority : String
  endpoint : String
  scope : String
  client_id : String
  secret : String
deriving DecidableEq

/-- The identifiers produced by Python's `dir(self)` on a `SpoController`
instance: the attribute and method names of the object.  Dunder names such
as `__init__` (likewise nonempty) are elided.  Crucially, `dir` yields
attribute NAMES, never their values, so this list does not depend on the
configuration at all. -/
def spoDirNames : List String :=
  ["_delete_file", "_get_upload_url", "_manage_file_chunks", "authority",
   "check_dir", "check_token", "cleanup_files", "client", "client_id",
   "connect_graph", "create_dir", "endpoint", "get_dir_id",
   "graph_token", "initialize_client", "query_graph", "scope", "secret",
   "upload_file", "validate_info"]

/-- `validate_info` (`spo_controller.py` lines 47-62): iterates over
`dir(self)` and returns `False` on the first falsy entry (`if not prop`),
else `True`.  The entries are attribute names (nonempty strings), not the
attribute values, so the configuration argument is never consulted. -/
def validate_info (_cfg : SpoConfig) : Bool :=
  spoDirNames.all fun prop => !prop.isEmpty

/-- The remote response to the `createUploadSession` POST in
`_get_upload_url` (`spo_controller.py` lines 255-269): its HTTP status and
the `uploadUrl` field of the JSON body (`none` when absent). -/
structure UploadSessionResp where
  status : Nat
  uploadUrl : Option String
deriving DecidableEq

/-- `_get_upload_url` (`spo_controller.py` lines 233-269): a status outside
`{200, 201}` only logs an error; the function then returns
`resp.json().get("uploadUrl", "")` regardless of the status. -/
def get_upload_url (resp : UploadSessionResp) : String :=
  resp.uploadUrl.getD ""

/-- `upload_file` (`spo_controller.py` lines 322-343): obtains the upload
URL; `if not upload_url: return False` (no PUT is issued), otherwise runs
`_manage_file_chunks`. -/
def upload_file (sessionResp : UploadSessionResp) (file_size : Nat)
    (chunkResp : Nat → Nat) : List PutCall × Bool :=
  if get_upload_url sessionResp = "" then ([], false)
  else manage_file_chunks file_size chunkResp

/-- `check_token` (`spo_controller.py` lines 109-118): `graph_token` is a
dict, modelled as an association list; the check is
`"access_token" in self.graph_token`. -/
def check_token (graph_token : List (String × String)) : Bool :=
  (graph_token.lookup "access_token").isSome

/-- The `Authorization` header value built by `query_graph` (line 136),
`_get_upload_url` (line 258) and `_delete_file` (line 362):
`f"Bearer {self.graph_token['access_token']}"`.  The dict subscript raises
`KeyError` when the key is absent, modelled by `Option`. -/
def authorizationHeader (graph_token : List (String × String)) : Option String :=
  (graph_token.lookup "access_token").map fun token => "Bearer " ++ token

/-- Python's `str.rstrip(chars)`: removes the longest trailing run of
characters that belong to the SET of characters of `chars` (not the
literal suffix `chars`). -/
def rstrip (s : String) (chars : String) : String :=
  ⟨(s.data.reverse.dropWhile fun c => decide (c ∈ chars.data)).reverse⟩

/-- The argument `manage_spo` passes to `get_dir_id`
(`main.py` line 50): `spo.endpoint.rstrip(":/children/")`. -/
def dir_lookup_endpoint (endpoint : String) : String :=
  rstrip endpoint ":/children/"

/-- A concrete folder listing of six items with parseable timestamps,
used to instantiate the retention theorems (items `b` and `d` are the two
oldest, in that order of age). -/
def sampleListing : List RemoteItem :=
  [⟨"a", "fa", some 30⟩, ⟨"b", "fb", some 10⟩, ⟨"c", "fc", some 40⟩,
   ⟨"d", "fd", some 20⟩, ⟨"e", "fe", some 50⟩, ⟨"f", "ff", some 60⟩]

/-- A concrete folder listing of five items none of whose `createdDateTime`
strings parse. -/
def unparseableListing : List RemoteItem :=
  [⟨"a", "fa", none⟩, ⟨"b", "fb", none⟩, ⟨"c", "fc", none⟩,
   ⟨"d", "fd", none⟩, ⟨"e", "fe", none⟩]

lemma min_chunk_step (a c L : Nat) :
    min a L + min c (L - min a L) = min (a + c) L := by
  omega

lemma chunkStart_succ (L i : Nat) :
    chunkStart L i + chunkLen L i = chunkStart L (i + 1) := by
  have h : (i + 1) * CHUNK_SIZE = i * CHUNK_SIZE + CHUNK_SIZE := by ring
  unfold chunkStart chunkLen
  rw [h]
  exact min_chunk_step (i * CHUNK_SIZE) CHUNK_SIZE L

lemma chunkStart_last (L : Nat) :
    chunkStart L (L / CHUNK_SIZE) + chunkLen L (L / CHUNK_SIZE) = L := by
  rw [chunkStart_succ]
  unfold chunkStart
  have h1 := Nat.div_add_mod L CHUNK_SIZE
  have h2 : L % CHUNK_SIZE < CHUNK_SIZE := Nat.mod_lt _ (by decide)
  have h3 : (L / CHUNK_SIZE + 1) * CHUNK_SIZE
      = CHUNK_SIZE * (L / CHUNK_SIZE) + CHUNK_SIZE := by ring
  rw [h3]
  omega

lemma manageChunksLoop_ok (L : Nat) (resp : Nat → Nat)
    (h : ∀ i, resp i ∈ acceptable_codes) (n : Nat) :
    ∀ j, manageChunksLoop L resp n j (chunkStart L j) =
      ((List.range n).map fun k =>
        (⟨chunkStart L (j + k), chunkLen L (j + k)⟩ : PutCall), true) := by
  induction n with
  | zero =>
    intro j
    simp [manageChunksLoop]
  | succ n ih =>
    intro j
    rw [manageChunksLoop]
    rw [if_pos (h j)]
    rw [show min CHUNK_SIZE (L - chunkStart L j) = chunkLen L j from rfl]
    rw [chunkStart_succ L j, ih (j + 1)]
    rw [List.range_succ_eq_map, List.map_cons, List.map_map]
    refine congrArg (fun l => (_ :: l, true)) ?_
    refine List.map_congr_left fun a _ => ?_
    have h1 : j + 1 + a = j + Nat.succ a := by omega
    simp [Function.comp, h1]

lemma manage_file_chunks_ok (L : Nat) (resp : Nat → Nat)
    (h : ∀ i, resp i ∈ acceptable_codes) :
    manage_file_chunks L resp = (chunkCalls L, true) := by
  have h0 : chunkStart L 0 = 0 := by simp [chunkStart]
  have hloop := manageChunksLoop_ok L resp h (L / CHUNK_SIZE + 1) 0
  rw [h0] at hloop
  simpa [manage_file_chunks, chunkCalls] using hloop

lemma chunkCalls_length (L : Nat) :
    (chunkCalls L).length = L / CHUNK_SIZE + 1 := by
  simp [chunkCalls]

lemma chunkCalls_get (L i : Nat) (h : i < (chunkCalls L).length) :
    (chunkCalls L).get ⟨i, h⟩ = ⟨chunkStart L i, chunkLen L i⟩ := by
  simp [chunkCalls]

lemma chunkCalls_eq_concat (L : Nat) :
    chunkCalls L =
      ((List.range (L / CHUNK_SIZE)).map fun i =>
        (⟨chunkStart L i, chunkLen L i⟩ : PutCall))
      ++ [⟨chunkStart L (L / CHUNK_SIZE), chunkLen L (L / CHUNK_SIZE)⟩] := by
  rw [chunkCalls, List.range_succ, List.map_append]
  rfl

/-- C1: for every byte source of length `L`, absent any chunk rejection,
`_manage_file_chunks` issues exactly `floor(L / CHUNK_SIZE) + 1` PUT calls,
reports success, and when `L` is an exact multiple of `CHUNK_SIZE`
(including `L = 0` and `L = CHUNK_SIZE`) the final PUT carries 0 bytes while
the transfer still succeeds (the trailing empty read is a harmless no-op). -/
theorem chunk_put_count_and_trailing_noop (L : Nat) (resp : Nat → Nat)
    (h : ∀ i, resp i ∈ acceptable_codes) :
    (manage_file_chunks L resp).1.length = L / CHUNK_SIZE + 1
      ∧ (manage_file_chunks L resp).2 = true
      ∧ (CHUNK_SIZE ∣ L →
          ((manage_file_chunks L resp).1.getLast?.map PutCall.len) = some 0) := by
  rw [manage_file_chunks_ok L resp h]
  refine ⟨by simp [chunkCalls], rfl, fun hd => ?_⟩
  rw [chunkCalls_eq_concat]
  simp only [List.getLast?_concat, Option.map_some]
  have hq : L / CHUNK_SIZE * CHUNK_SIZE = L := Nat.div_mul_cancel hd
  show some (chunkLen L (L / CHUNK_SIZE)) = some 0
  unfold chunkLen chunkStart
  rw [hq]
  simp only [Option.some.injEq]
  omega

/-- C1 witness: at `L = CHUNK_SIZE` (with every PUT accepted) the engine
issues `CHUNK_SIZE / CHUNK_SIZE + 1 = 2` PUT calls, succeeds, and the final
PUT carries 0 bytes. -/
theorem chunk_put_count_and_trailing_noop_witness :
    (200 : Nat) ∈ acceptable_codes
      ∧ ((manage_file_chunks CHUNK_SIZE fun _ => 200).1.length
            = CHUNK_SIZE / CHUNK_SIZE + 1
        ∧ (manage_file_chunks CHUNK_SIZE fun _ => 200).2 = true
        ∧ (CHUNK_SIZE ∣ CHUNK_SIZE →
            ((manage_file_chunks CHUNK_SIZE fun _ => 200).1.getLast?.map
              PutCall.len) = some 0)) := by
  have h200 : (200 : Nat) ∈ acceptable_codes := by decide
  exact ⟨h200,
    chunk_put_count_and_trailing_noop CHUNK_SIZE (fun _ => 200) fun _ => h200⟩

/-- C2: for every byte source of length `L` whose chunks are all accepted,
the byte ranges PUT by `_manage_file_chunks` are contiguous and strictly
increasing (range `i` end + 1 = range `i+1` start, and the starts strictly
increase), the final range's end + 1 equals `L`, and in particular for
`L = 25000000` the three calls carry exactly the ranges
`[0, 10485759]`, `[10485760, 20971519]`, `[20971520, 24999999]`
(stated as start/len pairs, `end = start + len - 1`). -/
theorem chunk_ranges_contiguous (L : Nat) (resp : Nat → Nat)
    (h : ∀ i, resp i ∈ acceptable_codes) :
    (∀ i (hi : i + 1 < (manage_file_chunks L resp).1.length),
        ((manage_file_chunks L resp).1.get ⟨i, Nat.lt_of_succ_lt hi⟩).start
            + ((manage_file_chunks L resp).1.get ⟨i, Nat.lt_of_succ_lt hi⟩).len
          = ((manage_file_chunks L resp).1.get ⟨i + 1, hi⟩).start
        ∧ ((manage_file_chunks L resp).1.get ⟨i, Nat.lt_of_succ_lt hi⟩).start
            < ((manage_file_chunks L resp).1.get ⟨i + 1, hi⟩).start)
      ∧ ((manage_file_chunks L resp).1.getLast?.map fun c => c.start + c.len)
          = some L
      ∧ (manage_file_chunks 25000000 fun _ => 200).1
          = [⟨0, 10485760⟩, ⟨10485760, 10485760⟩, ⟨20971520, 4028480⟩] := by
  rw [manage_file_chunks_ok L resp h]
  refine ⟨?_, ?_, by decide⟩
  · intro i hi
    rw [chunkCalls_get, chunkCalls_get]
    have hi' : i + 1 ≤ L / CHUNK_SIZE := by
      have hi2 : i + 1 < (chunkCalls L).length := hi
      rw [chunkCalls_length] at hi2
      omega
    refine ⟨chunkStart_succ L i, ?_⟩
    have h1 : (i + 1) * CHUNK_SIZE ≤ L := by
      calc (i + 1) * CHUNK_SIZE
          ≤ L / CHUNK_SIZE * CHUNK_SIZE := Nat.mul_le_mul_right _ hi'
        _ ≤ L := Nat.div_mul_le_self L CHUNK_SIZE
    have h2 : i * CHUNK_SIZE + CHUNK_SIZE = (i + 1) * CHUNK_SIZE := by ring
    have h3 : (0 : Nat) < CHUNK_SIZE := by decide
    show chunkStart L i < chunkStart L (i + 1)
    unfold chunkStart
    omega
  · rw [chunkCalls_eq_concat]
    simp only [List.getLast?_concat, Option.map_some]
    exact congrArg some (chunkStart_last L)

/-- C2 witness: the theorem instantiated at the end-to-end scenario
`L = 25000000` with every PUT answered 200. -/
theorem chunk_ranges_contiguous_witness :
    (200 : Nat) ∈ acceptable_codes
      ∧ ((manage_file_chunks 25000000 fun _ => 200).1
          = [⟨0, 10485760⟩, ⟨10485760, 10485760⟩, ⟨20971520, 4028480⟩]) := by
  have h200 : (200 : Nat) ∈ acceptable_codes := by decide
  exact ⟨h200, (chunk_ranges_contiguous 25000000 (fun _ => 200) fun _ => h200).2.2⟩

lemma manageChunksLoop_fail (L : Nat) (resp : Nat → Nat) (k : Nat) :
    ∀ n j start, k < n → resp (j + k) ∉ acceptable_codes →
      (∀ i, i < k → resp (j + i) ∈ acceptable_codes) →
      (manageChunksLoop L resp n j start).1.length = k + 1
        ∧ (manageChunksLoop L resp n j start).2 = false := by
  induction k with
  | zero =>
    intro n j start hn hbad _
    obtain ⟨n', rfl⟩ : ∃ n', n = n' + 1 := ⟨n - 1, by omega⟩
    rw [Nat.add_zero] at hbad
    rw [manageChunksLoop, if_neg hbad]
    simp
  | succ k ih =>
    intro n j start hn hbad hgood
    obtain ⟨n', rfl⟩ : ∃ n', n = n' + 1 := ⟨n - 1, by omega⟩
    have hj : resp j ∈ acceptable_codes := by
      have := hgood 0 (Nat.succ_pos k)
      rwa [Nat.add_zero] at this
    rw [manageChunksLoop, if_pos hj]
    have hbad' : resp (j + 1 + k) ∉ acceptable_codes := by
      have he : j + 1 + k = j + (k + 1) := by omega
      rwa [he]
    have hgood' : ∀ i, i < k → resp (j + 1 + i) ∈ acceptable_codes := by
      intro i hik
      have he : j + 1 + i = j + (i + 1) := by omega
      rw [he]
      exact hgood (i + 1) (by omega)
    have hrec := ih n' (j + 1)
      (start + min CHUNK_SIZE (L - start)) (by omega) hbad' hgood'
    constructor
    · simpa using hrec.1
    · simpa using hrec.2

/-- C4: if the chunk PUT at (0-based) index `k` is answered with a status
outside `{200, 201, 202}` while all earlier chunks were accepted, then the
failing PUT is the last one issued (exactly `k + 1` PUT calls happen) and
`_manage_file_chunks` returns `False`: no retry and no resumption. -/
theorem chunk_failure_aborts (L : Nat) (resp : Nat → Nat) (k : Nat)
    (hk : k < L / CHUNK_SIZE + 1)
    (hbad : resp k ∉ acceptable_codes)
    (hgood : ∀ i, i < k → resp i ∈ acceptable_codes) :
    (manage_file_chunks L resp).1.length = k + 1
      ∧ (manage_file_chunks L resp).2 = false := by
  have hbad0 : resp (0 + k) ∉ acceptable_codes := by rwa [Nat.zero_add]
  have hgood0 : ∀ i, i < k → resp (0 + i) ∈ acceptable_codes := by
    intro i hik
    rw [Nat.zero_add]
    exact hgood i hik
  exact manageChunksLoop_fail L resp k (L / CHUNK_SIZE + 1) 0 0 hk hbad0 hgood0

/-- C4 witness: a zero-length source whose single PUT is answered 500 issues
exactly that one PUT and the transfer reports failure. -/
theorem chunk_failure_aborts_witness :
    (0 < 0 / CHUNK_SIZE + 1 ∧ (500 : Nat) ∉ acceptable_codes)
      ∧ ((manage_file_chunks 0 fun _ => 500).1.length = 0 + 1
          ∧ (manage_file_chunks 0 fun _ => 500).2 = false) := by
  refine ⟨⟨by decide, by decide⟩, ?_⟩
  exact chunk_failure_aborts 0 (fun _ => 500) 0 (by decide) (by decide)
    (fun i hi => absurd hi (by omega))

lemma selectOldest_cases (l : List RemoteItem) :
    ∀ (b : Nat) (nm idv : String),
      (∀ it ∈ l, it.createdDateTime.isSome = true) →
      (selectOldest l (b, nm, idv) = (b, nm, idv) ∧ ∀ it ∈ l, b ≤ timeOf it)
      ∨ (∃ k, ∃ hk : k < l.length,
          selectOldest l (b, nm, idv)
            = (timeOf (l.get ⟨k, hk⟩), (l.get ⟨k, hk⟩).name, (l.get ⟨k, hk⟩).id)
          ∧ timeOf (l.get ⟨k, hk⟩) < b
          ∧ (∀ it ∈ l, timeOf (l.get ⟨k, hk⟩) ≤ timeOf it)
          ∧ ∀ j (hj : j < k),
              timeOf (l.get ⟨k, hk⟩) < timeOf (l.get ⟨j, Nat.lt_trans hj hk⟩)) := by
  induction l with
  | nil =>
    intro b nm idv _
    left
    exact ⟨rfl, by simp⟩
  | cons x xs ih =>
    intro b nm idv hp
    obtain ⟨t, ht⟩ : ∃ t, x.createdDateTime = some t := by
      have hx := hp x (by simp)
      cases hxc : x.createdDateTime with
      | none => rw [hxc] at hx; simp at hx
      | some t => exact ⟨t, rfl⟩
    have htx : timeOf x = t := by simp [timeOf, ht]
    have hp' : ∀ it ∈ xs, it.createdDateTime.isSome = true := by
      intro it hit
      exact hp it (by simp [hit])
    by_cases hlt : t < b
    · have hstep : selectOldest (x :: xs) (b, nm, idv)
          = selectOldest xs (t, x.name, x.id) := by
        simp [selectOldest, ht, hlt]
      rcases ih t x.name x.id hp' with ⟨heq, hall⟩ | ⟨k, hk, heq, hlt2, hmin, hfirst⟩
      · right
        refine ⟨0, by simp, ?_, ?_, ?_, ?_⟩
        · rw [hstep, heq]
          simp [htx]
        · simpa [htx] using hlt
        · intro it hit
          rcases List.mem_cons.mp hit with rfl | hmem
          · simp
          · simpa [htx] using hall it hmem
        · intro j hj
          exact absurd hj (Nat.not_lt_zero j)
      · right
        refine ⟨k + 1, by simpa using Nat.succ_lt_succ hk, ?_, ?_, ?_, ?_⟩
        · rw [hstep, heq]
          simp
        · simpa using Nat.lt_trans hlt2 hlt
        · intro it hit
          rcases List.mem_cons.mp hit with rfl | hmem
          · simp only [List.get_cons_succ]
            omega
          · simpa using hmin it hmem
        · intro j hj
          cases j with
          | zero =>
            show timeOf (xs.get ⟨k, hk⟩) < timeOf x
            omega
          | succ j =>
            simpa using hfirst j (by omega)
    · have hstep : selectOldest (x :: xs) (b, nm, idv)
          = selectOldest xs (b, nm, idv) := by
        simp [selectOldest, ht, hlt]
      rcases ih b nm idv hp' with ⟨heq, hall⟩ | ⟨k, hk, heq, hlt2, hmin, hfirst⟩
      · left
        refine ⟨hstep.trans heq, ?_⟩
        intro it hit
        rcases List.mem_cons.mp hit with rfl | hmem
        · omega
        · exact hall it hmem
      · right
        refine ⟨k + 1, by simpa using Nat.succ_lt_succ hk, ?_, ?_, ?_, ?_⟩
        · rw [hstep, heq]
          simp
        · simpa using hlt2
        · intro it hit
          rcases List.mem_cons.mp hit with rfl | hmem
          · simp only [List.get_cons_succ]
            omega
          · simpa using hmin it hmem
        · intro j hj
          cases j with
          | zero =>
            show timeOf (xs.get ⟨k, hk⟩) < timeOf x
            omega
          | succ j =>
            simpa using hfirst j (by omega)

lemma find?_of_first {α : Type} (p : α → Bool) (l : List α) :
    ∀ (k : Nat) (hk : k < l.length),
      p (l.get ⟨k, hk⟩) = true →
      (∀ j (hj : j < k), p (l.get ⟨j, Nat.lt_trans hj hk⟩) = false) →
      l.find? p = some (l.get ⟨k, hk⟩) := by
  induction l with
  | nil =>
    intro k hk
    exact absurd hk (by simp)
  | cons x xs ih =>
    intro k hk hpk hprev
    cases k with
    | zero =>
      have hpx : p x = true := hpk
      simp [List.find?_cons, hpx]
    | succ k =>
      have hpx : p x = false := hprev 0 (Nat.succ_pos k)
      have hk' : k < xs.length := Nat.lt_of_succ_lt_succ hk
      have hpk' : p (xs.get ⟨k, hk'⟩) = true := hpk
      have hprev' : ∀ j (hj : j < k), p (xs.get ⟨j, Nat.lt_trans hj hk'⟩) = false := by
        intro j hj
        exact hprev (j + 1) (Nat.succ_lt_succ hj)
      rw [List.find?_cons, hpx]
      exact ih k hk' hpk' hprev'

lemma selectOldest_specSelect (items : List RemoteItem) (sentinel : Nat)
    (nm idv : String)
    (hp : ∀ it ∈ items, it.createdDateTime.isSome = true)
    (hs : ∀ it ∈ items, timeOf it < sentinel)
    (hne : items ≠ []) :
    ∃ m, m ∈ items ∧ specSelect items = some m
      ∧ selectOldest items (sentinel, nm, idv) = (timeOf m, m.name, m.id) := by
  rcases selectOldest_cases items sentinel nm idv hp with
    ⟨_, hall⟩ | ⟨k, hk, heq, _, hmin, hfirst⟩
  · obtain ⟨it, hit⟩ := List.exists_mem_of_ne_nil items hne
    have h1 := hall it hit
    have h2 := hs it hit
    omega
  · refine ⟨items.get ⟨k, hk⟩, List.get_mem items k hk, ?_, heq⟩
    apply find?_of_first
    · simp only [List.all_eq_true, decide_eq_true_eq]
      intro other ho
      exact hmin other ho
    · intro j hj
      rw [List.all_eq_false]
      refine ⟨items.get ⟨k, hk⟩, List.get_mem items k hk, ?_⟩
      simp only [decide_eq_true_eq]
      have h1 := hfirst j hj
      omega

lemma find?_id_eq :
    ∀ (items : List RemoteItem) (m : RemoteItem), m ∈ items →
      (items.map RemoteItem.id).Nodup →
      items.find? (fun f => f.id == m.id) = some m := by
  intro items
  induction items with
  | nil =>
    intro m hm
    exact absurd hm (by simp)
  | cons x xs ih =>
    intro m hm hnd
    rw [List.map_cons, List.nodup_cons] at hnd
    rcases List.mem_cons.mp hm with rfl | hmem
    · simp [List.find?_cons]
    · have hx : x.id ≠ m.id := by
        intro he
        exact hnd.1 (he ▸ List.mem_map_of_mem RemoteItem.id hmem)
      have hbeq : (x.id == m.id) = false := by
        simp [hx]
      rw [List.find?_cons, hbeq]
      exact ih m hmem hnd.2

lemma mem_of_mem_erase {m x : RemoteItem} {l : List RemoteItem}
    (h : x ∈ l.erase m) : x ∈ l :=
  (List.erase_sublist m l).subset h

lemma nodup_id_erase (l : List RemoteItem) (m : RemoteItem)
    (hnd : (l.map RemoteItem.id).Nodup) :
    ((l.erase m).map RemoteItem.id).Nodup :=
  List.Nodup.sublist (List.Sublist.map RemoteItem.id (List.erase_sublist m l)) hnd

lemma cleanupLoop_round (sentinel : Nat) (delOk : Nat → Bool)
    (fuel step : Nat) (items : List RemoteItem) (nm idv : String)
    (hp : ∀ it ∈ items, it.createdDateTime.isSome = true)
    (hs : ∀ it ∈ items, timeOf it < sentinel)
    (hnd : (items.map RemoteItem.id).Nodup)
    (hlen : MAX_BACKUPS < items.length)
    (hok : delOk step = true) :
    ∃ m, m ∈ items ∧ specSelect items = some m ∧
      cleanupLoop sentinel delOk (fuel + 1) step items nm idv
        = (m.id ::
            (cleanupLoop sentinel delOk fuel (step + 1) (items.erase m) m.name m.id).1,
           (cleanupLoop sentinel delOk fuel (step + 1) (items.erase m) m.name m.id).2) := by
  have hne : items ≠ [] := by
    intro h
    rw [h] at hlen
    simp [MAX_BACKUPS] at hlen
  obtain ⟨m, hm, hsel, hold⟩ := selectOldest_specSelect items sentinel nm idv hp hs hne
  refine ⟨m, hm, hsel, ?_⟩
  simp only [cleanupLoop, hold]
  rw [if_pos hlen, if_pos hok]
  rw [find?_id_eq items m hm hnd]

lemma cleanupLoop_all_ok (sentinel : Nat) (delOk : Nat → Bool)
    (hdel : ∀ k, delOk k = true) :
    ∀ (fuel : Nat) (items : List RemoteItem) (nm idv : String) (step : Nat),
      items.length ≤ fuel →
      (∀ it ∈ items, it.createdDateTime.isSome = true) →
      (∀ it ∈ items, timeOf it < sentinel) →
      (items.map RemoteItem.id).Nodup →
      cleanupLoop sentinel delOk fuel step items nm idv
        = specEvict (items.length - MAX_BACKUPS) items := by
  intro fuel
  induction fuel with
  | zero =>
    intro items nm idv step hf _ _ _
    have hnil : items = [] := List.eq_nil_of_length_eq_zero (by omega)
    subst hnil
    simp [cleanupLoop, specEvict]
  | succ fuel ih =>
    intro items nm idv step hf hp hs hnd
    by_cases hlen : MAX_BACKUPS < items.length
    · obtain ⟨m, hm, hsel, hloopeq⟩ :=
        cleanupLoop_round sentinel delOk fuel step items nm idv hp hs hnd hlen (hdel step)
      rw [hloopeq]
      have hplen : (items.erase m).length = items.length - 1 :=
        List.length_erase_of_mem hm
      have hrec := ih (items.erase m) m.name m.id (step + 1)
        (by rw [hplen]; omega)
        (fun it hit => hp it (mem_of_mem_erase hit))
        (fun it hit => hs it (mem_of_mem_erase hit))
        (nodup_id_erase items m hnd)
      rw [hplen] at hrec
      rw [hrec]
      have hk : items.length - MAX_BACKUPS = (items.length - 1 - MAX_BACKUPS) + 1 := by
        have : (0:Nat) < MAX_BACKUPS := by decide
        omega
      rw [hk, specEvict, hsel]
    · rw [cleanupLoop, if_neg hlen]
      have h0 : items.length - MAX_BACKUPS = 0 := by omega
      rw [h0, specEvict]

lemma specEvict_lengths (sentinel : Nat) :
    ∀ (k : Nat) (items : List RemoteItem),
      (∀ it ∈ items, it.createdDateTime.isSome = true) →
      (∀ it ∈ items, timeOf it < sentinel) →
      k ≤ items.length →
      (specEvict k items).1.length = k
        ∧ (specEvict k items).2.length = items.length - k := by
  intro k
  induction k with
  | zero =>
    intro items _ _ _
    simp [specEvict]
  | succ k ih =>
    intro items hp hs hk
    have hne : items ≠ [] := by
      intro h
      rw [h] at hk
      simp at hk
    obtain ⟨m, hm, hsel, _⟩ := selectOldest_specSelect items sentinel "" "" hp hs hne
    rw [specEvict, hsel]
    have hplen : (items.erase m).length = items.length - 1 :=
      List.length_erase_of_mem hm
    have hrec := ih (items.erase m)
      (fun it hit => hp it (mem_of_mem_erase hit))
      (fun it hit => hs it (mem_of_mem_erase hit))
      (by rw [hplen]; omega)
    constructor
    · show (m.id :: (specEvict k (items.erase m)).1).length = k + 1
      rw [List.length_cons, hrec.1]
    · show (specEvict k (items.erase m)).2.length = items.length - (k + 1)
      rw [hrec.2, hplen]
      omega

/-- C3: for a folder listing with more than `MAX_BACKUPS` items in which
every item has a parseable creation timestamp (below the next-year
sentinel) and distinct ids, and every DELETE succeeds, `cleanup_files`
attempts exactly `N - MAX_BACKUPS` deletions and its behaviour refines the
spec-side eviction `specEvict`: each round deletes the remaining item with
the globally minimum creation timestamp, first minimum winning ties;
`MAX_BACKUPS` items remain. -/
theorem retention_deletes_oldest (sentinel : Nat) (delOk : Nat → Bool)
    (items : List RemoteItem)
    (hdel : ∀ k, delOk k = true)
    (hp : ∀ it ∈ items, it.createdDateTime.isSome = true)
    (hs : ∀ it ∈ items, timeOf it < sentinel)
    (hnd : (items.map RemoteItem.id).Nodup)
    (hN : MAX_BACKUPS < items.length) :
    cleanup_files sentinel delOk items.length items
        = specEvict (items.length - MAX_BACKUPS) items
      ∧ (cleanup_files sentinel delOk items.length items).1.length
          = items.length - MAX_BACKUPS
      ∧ (cleanup_files sentinel delOk items.length items).2.length = MAX_BACKUPS := by
  have hmain : cleanup_files sentinel delOk items.length items
      = specEvict (items.length - MAX_BACKUPS) items :=
    cleanupLoop_all_ok sentinel delOk hdel items.length items "" "" 0
      (Nat.le_refl _) hp hs hnd
  have hlens := specEvict_lengths sentinel (items.length - MAX_BACKUPS) items hp hs
    (by omega)
  refine ⟨hmain, ?_, ?_⟩
  · rw [hmain, hlens.1]
  · rw [hmain, hlens.2]
    omega

/-- C3 witness: the theorem instantiated at a 6-item listing with
`maxItems = MAX_BACKUPS = 4`: exactly the 2 oldest items are deleted,
oldest first (ids `b` then `d`). -/
theorem retention_deletes_oldest_witness :
    (MAX_BACKUPS < sampleListing.length
        ∧ (sampleListing.map RemoteItem.id).Nodup)
      ∧ (cleanup_files 100 (fun _ => true) sampleListing.length sampleListing
            = specEvict (sampleListing.length - MAX_BACKUPS) sampleListing
          ∧ (cleanup_files 100 (fun _ => true) sampleListing.length
              sampleListing).1.length = sampleListing.length - MAX_BACKUPS
          ∧ (cleanup_files 100 (fun _ => true) sampleListing.length
              sampleListing).2.length = MAX_BACKUPS)
      ∧ (cleanup_files 100 (fun _ => true) sampleListing.length
          sampleListing).1 = ["b", "d"] := by
  refine ⟨⟨by decide, by decide⟩, ?_, by decide⟩
  exact retention_deletes_oldest 100 (fun _ => true) sampleListing
    (fun _ => rfl) (by decide) (by decide) (by decide) (by decide)

lemma cleanupLoop_fail_at (sentinel : Nat) (delOk : Nat → Bool) :
    ∀ (k fuel step : Nat) (items : List RemoteItem) (nm idv : String),
      items.length ≤ fuel →
      (∀ it ∈ items, it.createdDateTime.isSome = true) →
      (∀ it ∈ items, timeOf it < sentinel) →
      (items.map RemoteItem.id).Nodup →
      (∀ i, i < k → delOk (step + i) = true) →
      delOk (step + k) = false →
      k + MAX_BACKUPS < items.length →
      (cleanupLoop sentinel delOk fuel step items nm idv).1.length = k + 1
        ∧ (cleanupLoop sentinel delOk fuel step items nm idv).2.length
            = items.length - k := by
  intro k
  induction k with
  | zero =>
    intro fuel step items nm idv hf hp hs _ _ hfail hlen
    rw [Nat.add_zero] at hfail
    have hlen' : MAX_BACKUPS < items.length := by omega
    obtain ⟨fuel', rfl⟩ : ∃ f, fuel = f + 1 := ⟨fuel - 1, by omega⟩
    have hne : items ≠ [] := by
      intro h
      rw [h] at hlen'
      simp [MAX_BACKUPS] at hlen'
    obtain ⟨m, hm, _, hold⟩ := selectOldest_specSelect items sentinel nm idv hp hs hne
    simp only [cleanupLoop, hold]
    rw [if_pos hlen', if_neg (by simp [hfail])]
    exact ⟨rfl, by simp⟩
  | succ k ih =>
    intro fuel step items nm idv hf hp hs hnd hgood hfail hlen
    have hlen' : MAX_BACKUPS < items.length := by omega
    obtain ⟨fuel', rfl⟩ : ∃ f, fuel = f + 1 := ⟨fuel - 1, by omega⟩
    have hok : delOk step = true := by
      have h0 := hgood 0 (Nat.succ_pos k)
      rwa [Nat.add_zero] at h0
    obtain ⟨m, hm, _, hloopeq⟩ :=
      cleanupLoop_round sentinel delOk fuel' step items nm idv hp hs hnd hlen' hok
    rw [hloopeq]
    have hplen : (items.erase m).length = items.length - 1 :=
      List.length_erase_of_mem hm
    have hrec := ih fuel' (step + 1) (items.erase m) m.name m.id
      (by omega)
      (fun it hit => hp it (mem_of_mem_erase hit))
      (fun it hit => hs it (mem_of_mem_erase hit))
      (nodup_id_erase items m hnd)
      (fun i hi => by
        have hg := hgood (i + 1) (by omega)
        have he : step + (i + 1) = step + 1 + i := by omega
        rwa [he] at hg)
      (by
        have he : step + (k + 1) = step + 1 + k := by omega
        rwa [he] at hfail)
      (by omega)
    constructor
    · show (m.id ::
          (cleanupLoop sentinel delOk fuel' (step + 1) (items.erase m)
            m.name m.id).1).length = k + 1 + 1
      rw [List.length_cons, hrec.1]
    · show (cleanupLoop sentinel delOk fuel' (step + 1) (items.erase m)
          m.name m.id).2.length = items.length - (k + 1)
      rw [hrec.2, hplen]
      omega

/-- C5: if the first `k` DELETE attempts succeed (status 204) and the
attempt after them fails (any other status), and `k` more deletions would
still have been needed (`k + MAX_BACKUPS < N`), then `cleanup_files`
attempts no further deletions — exactly `k + 1` attempts happen — and
`N - k` items remain undeleted.  The failure only breaks the retention
loop; `cleanup_files` has no failure result to propagate, so the overall
run is unaffected. -/
theorem retention_stops_on_delete_failure (sentinel : Nat) (delOk : Nat → Bool)
    (items : List RemoteItem) (k : Nat)
    (hp : ∀ it ∈ items, it.createdDateTime.isSome = true)
    (hs : ∀ it ∈ items, timeOf it < sentinel)
    (hnd : (items.map RemoteItem.id).Nodup)
    (hgood : ∀ i, i < k → delOk i = true)
    (hfail : delOk k = false)
    (hk : k + MAX_BACKUPS < items.length) :
    (cleanup_files sentinel delOk items.length items).1.length = k + 1
      ∧ (cleanup_files sentinel delOk items.length items).2.length
          = items.length - k := by
  have hgood0 : ∀ i, i < k → delOk (0 + i) = true := by
    intro i hi
    rw [Nat.zero_add]
    exact hgood i hi
  have hfail0 : delOk (0 + k) = false := by rwa [Nat.zero_add]
  exact cleanupLoop_fail_at sentinel delOk k items.length 0 items "" ""
    (Nat.le_refl _) hp hs hnd hgood0 hfail0 hk

/-- C5 witness: on the 6-item listing, the first deletion succeeds and the
second fails, so exactly 2 attempts happen and 5 items remain. -/
theorem retention_stops_on_delete_failure_witness :
    ((fun i => decide (i = 0)) 1 = false
        ∧ 1 + MAX_BACKUPS < sampleListing.length)
      ∧ ((cleanup_files 100 (fun i => decide (i = 0)) sampleListing.length
            sampleListing).1.length = 1 + 1
        ∧ (cleanup_files 100 (fun i => decide (i = 0)) sampleListing.length
            sampleListing).2.length = sampleListing.length - 1) := by
  refine ⟨⟨by decide, by decide⟩, ?_⟩
  refine retention_stops_on_delete_failure 100 (fun i => decide (i = 0))
    sampleListing 1 (by decide) (by decide) (by decide) ?_ (by decide) (by decide)
  intro i hi
  have h0 : i = 0 := by omega
  rw [h0]
  rfl

lemma selectOldest_none_case :
    ∀ (l : List RemoteItem), (∀ it ∈ l, it.createdDateTime = none) →
      ∀ acc, selectOldest l acc = acc := by
  intro l
  induction l with
  | nil =>
    intro _ acc
    rfl
  | cons x xs ih =>
    intro h acc
    have hx : x.createdDateTime = none := h x (by simp)
    have h' : ∀ it ∈ xs, it.createdDateTime = none := by
      intro it hit
      exact h it (by simp [hit])
    simp only [selectOldest, hx]
    exact ih h' acc

lemma find?_empty_id_none (items : List RemoteItem)
    (h : ∀ it ∈ items, it.id ≠ "") :
    items.find? (fun f => f.id == "") = none := by
  rw [List.find?_eq_none]
  intro x hx
  simp [h x hx]

lemma cleanupLoop_unparseable (sentinel : Nat) (items : List RemoteItem)
    (hnone : ∀ it ∈ items, it.createdDateTime = none)
    (hid : ∀ it ∈ items, it.id ≠ "")
    (hlen : MAX_BACKUPS < items.length) :
    ∀ (fuel step : Nat) (nm : String),
      cleanupLoop sentinel (fun _ => true) fuel step items nm ""
        = (List.replicate fuel "", items) := by
  intro fuel
  induction fuel with
  | zero =>
    intro step nm
    rfl
  | succ fuel ih =>
    intro step nm
    have hsel : selectOldest items (sentinel, nm, "") = (sentinel, nm, "") :=
      selectOldest_none_case items hnone (sentinel, nm, "")
    simp only [cleanupLoop, hsel]
    rw [if_pos hlen, if_pos trivial]
    rw [find?_empty_id_none items hid]
    rw [ih (step + 1) nm]
    simp [List.replicate_succ]

/-- C8: in `cleanup_files`, items whose creation timestamp fails to parse
still count toward the `MAX_BACKUPS` threshold but are never selected as
the deletion candidate (the selection pass returns its accumulator
unchanged).  Hence when the listing exceeds `MAX_BACKUPS` and no item
parses, no guard stops the loop: for every iteration bound `fuel` the loop
performs `fuel` deletion attempts, all of the empty-sentinel id `""`, and
the listing never shrinks (assuming the remote answers 204 even for the
empty id). -/
theorem retention_unparseable_spins (sentinel : Nat) (items : List RemoteItem)
    (hnone : ∀ it ∈ items, it.createdDateTime = none)
    (hid : ∀ it ∈ items, it.id ≠ "")
    (hlen : MAX_BACKUPS < items.length) :
    (∀ (b : Nat) (nm idv : String), selectOldest items (b, nm, idv) = (b, nm, idv))
      ∧ ∀ fuel, cleanup_files sentinel (fun _ => true) fuel items
          = (List.replicate fuel "", items) := by
  constructor
  · intro b nm idv
    exact selectOldest_none_case items hnone (b, nm, idv)
  · intro fuel
    exact cleanupLoop_unparseable sentinel items hnone hid hlen fuel 0 ""

/-- C8 witness: five unparseable items exceed the threshold of 4; with a
bound of 3 iterations the loop makes 3 attempts, each of the empty id,
and the listing is unchanged. -/
theorem retention_unparseable_spins_witness :
    ((∀ it ∈ unparseableListing, it.createdDateTime = none)
        ∧ MAX_BACKUPS < unparseableListing.length)
      ∧ cleanup_files 999 (fun _ => true) 3 unparseableListing
          = (List.replicate 3 "", unparseableListing) := by
  refine ⟨⟨by decide, by decide⟩, ?_⟩
  exact (retention_unparseable_spins 999 unparseableListing
    (by decide) (by decide) (by decide)).2 3

/-- C6 (code bug evaluation): `validate_info` iterates over `dir(self)`,
i.e. over attribute NAMES, which are never empty strings, so it returns
`True` even when every required setting is the empty string — it returns
`True` for every configuration whatsoever.  `manage_spo` (`main.py`
lines 37-39) only skips the upload when `validate_info` is false, so the
pipeline proceeds to `connect_graph` and its network token acquisition. -/
theorem validate_info_accepts_empty_config :
    validate_info ⟨"", "", "", "", ""⟩ = true
      ∧ ∀ cfg : SpoConfig, validate_info cfg = true := by
  refine ⟨by decide, fun cfg => ?_⟩
  show spoDirNames.all (fun prop => !prop.isEmpty) = true
  decide

/-- C7 counterexample: a `createUploadSession` response with failure status
500 whose body nevertheless contains an `uploadUrl` field makes
`_get_upload_url` return that non-empty URL, and `upload_file` then issues
a chunk PUT — refuting that every non-`{200, 201}` status yields the empty
string and no chunk transfer. -/
theorem upload_url_failure_status_counterexample :
    ¬ (get_upload_url ⟨500, some "https://upload.example/abc"⟩ = ""
        ∧ (upload_file ⟨500, some "https://upload.example/abc"⟩ 0
            fun _ => 200).1 = []) := by
  decide

/-- C7 (amended): `_get_upload_url` returns the response body's
`uploadUrl` value regardless of the status — in particular the empty
string whenever the field is absent, as it is in ordinary error bodies —
and `upload_file` treats exactly the empty returned URL as fatal, issuing
no chunk PUT and reporting failure. -/
theorem upload_url_empty_gates_transfer (resp : UploadSessionResp)
    (file_size : Nat) (chunkResp : Nat → Nat)
    (h : resp.uploadUrl = none) :
    get_upload_url resp = ""
      ∧ upload_file resp file_size chunkResp = ([], false) := by
  have hurl : get_upload_url resp = "" := by
    rw [get_upload_url, h]
    rfl
  refine ⟨hurl, ?_⟩
  rw [upload_file, if_pos hurl]

/-- C7 witness: a status-500 response with no `uploadUrl` field yields the
empty string and no transfer. -/
theorem upload_url_empty_gates_transfer_witness :
    (UploadSessionResp.mk 500 none).uploadUrl = none
      ∧ (get_upload_url ⟨500, none⟩ = ""
        ∧ upload_file ⟨500, none⟩ 7 (fun _ => 200) = ([], false)) :=
  ⟨rfl, upload_url_empty_gates_transfer ⟨500, none⟩ 7 (fun _ => 200) rfl⟩

/-- C9: whenever `check_token` has returned `True` (the `graph_token` dict
contains the key `"access_token"`) and `graph_token` is not reassigned,
the `Authorization` header expression shared by `query_graph`,
`_get_upload_url` and `_delete_file` — the subscript
`graph_token["access_token"]` — cannot raise: the lookup yields a value
`v` and the header is `"Bearer " ++ v`. -/
theorem token_lookup_total (graph_token : List (String × String))
    (h : check_token graph_token = true) :
    ∃ v, graph_token.lookup "access_token" = some v
      ∧ authorizationHeader graph_token = some ("Bearer " ++ v) := by
  rw [check_token, Option.isSome_iff_exists] at h
  obtain ⟨v, hv⟩ := h
  refine ⟨v, hv, ?_⟩
  rw [authorizationHeader, hv]
  rfl

/-- C9 witness: a token dict holding `"access_token" ↦ "abc"` passes
`check_token` and produces the header `"Bearer abc"`. -/
theorem token_lookup_total_witness :
    check_token [("access_token", "abc")] = true
      ∧ ∃ v, ([("access_token", "abc")] : List (String × String)).lookup
            "access_token" = some v
          ∧ authorizationHeader [("access_token", "abc")]
              = some ("Bearer " ++ v) :=
  ⟨rfl, token_lookup_total [("access_token", "abc")] rfl⟩

/-- C10: `manage_spo` derives the directory-lookup argument with
`endpoint.rstrip(":/children/")`, which strips any trailing run of the
characters `{':', '/', 'c', 'h', 'i', 'l', 'd', 'r', 'e', 'n'}` rather
than the literal `":/children"` suffix.  For an endpoint whose folder is
named `archive` (ending in such a character), the resolver is invoked on
the truncated path `.../root:/archiv`, which differs from the endpoint
with the children-collection suffix removed (`.../root:/archive`). -/
theorem rstrip_charset_truncates_endpoint :
    dir_lookup_endpoint "https://graph.example/drive/root:/archive:/children"
        = "https://graph.example/drive/root:/archiv"
      ∧ "https://graph.example/drive/root:/archive:/children"
          = "https://graph.example/drive/root:/archive" ++ ":/children"
      ∧ dir_lookup_endpoint "https://graph.example/drive/root:/archive:/children"
          ≠ "https://graph.example/drive/root:/archive" := by
  refine ⟨by decide, by decide, by decide⟩
